import Mathlib

/-!
Verification of the skstack-rs protocol stack: the ECHONET Lite frame codec
(`src/echonet_lite.rs`), the CRLF line reader, the event parser and the
scan/join sequencers (`src/lib.rs`), shallowly embedded in Lean.

Machine bytes are modelled as `Nat` (with explicit range conditions where the
Rust types impose them).  Fallible Rust code returning `Result` is modelled by
`RustResult`, whose third constructor `panic` stands for a Rust runtime abort
(out-of-bounds slice or index, arithmetic underflow): the Rust functions in
this repository index into slices without bounds checks, so an abort is a
reachable outcome distinct from returning an `Err` value.
-/

/-- Outcome of running a fallible Rust function: a returned value, a returned
error, or a runtime abort (slice/index out of bounds, overflow). -/
inductive RustResult (ε α : Type) where
  | ok (a : α)
  | err (e : ε)
  | panic
deriving DecidableEq, Repr

namespace RustResult

def bind : RustResult ε α → (α → RustResult ε β) → RustResult ε β
  | .ok a, f => f a
  | .err e, _ => .err e
  | .panic, _ => .panic

instance : Monad (RustResult ε) where
  pure := .ok
  bind := bind

end RustResult

/-! ## ECHONET Lite frame codec (`src/echonet_lite.rs`) -/

/-- `Error` in `echonet_lite.rs` is a string description; the only way the
code builds one is from a `TryFromPrimitiveError`, which records the enum and
the offending byte.  We keep that structure instead of the formatted text. -/
inductive ELError where
  | tryFromPrimitive (enumName : String) (number : Nat)
deriving DecidableEq, Repr

/-- `EHD2`: frame format discriminator, `#[repr(u8)]` enum. -/
inductive EHD2 where
  | format1
  | format2
deriving DecidableEq, Repr

/-- `EHD2::try_from` (derived by `TryFromPrimitive`). -/
def EHD2.tryFrom (b : Nat) : Except ELError EHD2 :=
  if b = 0x81 then .ok .format1
  else if b = 0x82 then .ok .format2
  else .error (.tryFromPrimitive "EHD2" b)

/-- `EHD2 as u8`. -/
def EHD2.toNat : EHD2 → Nat
  | .format1 => 0x81
  | .format2 => 0x82

/-- `ESV`: echonet service code, `#[repr(u8)]` enum. -/
inductive ESV where
  | SetI
  | SetC
  | Get
  | INF_REQ
  | SetGet
deriving DecidableEq, Repr

/-- `ESV::try_from` (derived by `TryFromPrimitive`). -/
def ESV.tryFrom (b : Nat) : Except ELError ESV :=
  if b = 0x60 then .ok .SetI
  else if b = 0x61 then .ok .SetC
  else if b = 0x62 then .ok .Get
  else if b = 0x63 then .ok .INF_REQ
  else if b = 0x6E then .ok .SetGet
  else .error (.tryFromPrimitive "ESV" b)

/-- `ESV as u8`. -/
def ESV.toNat : ESV → Nat
  | .SetI => 0x60
  | .SetC => 0x61
  | .Get => 0x62
  | .INF_REQ => 0x63
  | .SetGet => 0x6E

/-- `EOJ`: echonet object id, three bytes. -/
structure EOJ where
  x1 : Nat
  x2 : Nat
  x3 : Nat
deriving DecidableEq, Repr

/-- `EOJ::as_bytes`. -/
def EOJ.as_bytes (e : EOJ) : List Nat := [e.x1, e.x2, e.x3]

/-- `EProp`: one property record (`epc`, `pdc`, `edt`). -/
structure EProp where
  epc : Nat
  pdc : Nat
  edt : List Nat
deriving DecidableEq, Repr

/-- `EProp::as_bytes`: `vec![epc, pdc]` extended with `edt`. -/
def EProp.as_bytes (p : EProp) : List Nat := p.epc :: p.pdc :: p.edt

/-- `EDATA`: Format1 structured data or Format2 opaque payload. -/
inductive EDATA where
  | format1 (seoj : EOJ) (deoj : EOJ) (esv : ESV) (opc : Nat) (props : List EProp)
  | format2 (data : List Nat)
deriving DecidableEq, Repr

/-- `EFrame`. -/
structure EFrame where
  ehd1 : Nat
  ehd2 : EHD2
  tid : Nat
  edata : EDATA
deriving DecidableEq, Repr

/-- The flat wire image of a property list: each property's `as_bytes`, in
list order (the `for prop in props` loop of `EFrame::as_bytes`). -/
def propsFlat (props : List EProp) : List Nat :=
  (props.map EProp.as_bytes).flatten

/-- `EFrame::as_bytes`: fixed header byte, format byte, big-endian
transaction id, then per-format body. -/
def EFrame.as_bytes (f : EFrame) : List Nat :=
  [f.ehd1, f.ehd2.toNat, f.tid / 256, f.tid % 256] ++
    match f.edata with
    | .format1 seoj deoj esv opc props =>
        seoj.as_bytes ++ deoj.as_bytes ++ [esv.toNat, opc] ++ propsFlat props
    | .format2 data => data

/-- The property-reading loop of `EFrame::from_bytes` (`for i in 0..opc`).
Each iteration reads `bytes[tail_cursor]` (the code), `bytes[tail_cursor+1]`
(the length) and the slice `bytes[tail_cursor+2 .. tail_cursor+2+pdc]`; any
read past the end of `bytes` is a Rust panic, modelled as `.panic`. -/
def propsLoop (bytes : List Nat) : Nat → Nat → RustResult ELError (List EProp)
  | _cursor, 0 => .ok []
  | cursor, n + 1 =>
    match bytes[cursor]? with
    | none => .panic
    | some epc =>
      match bytes[cursor + 1]? with
      | none => .panic
      | some pdc =>
        if cursor + 2 + pdc ≤ bytes.length then
          match propsLoop bytes (cursor + 2 + pdc) n with
          | .ok rest => .ok (⟨epc, pdc, (bytes.drop (cursor + 2)).take pdc⟩ :: rest)
          | .err e => .err e
          | .panic => .panic
        else .panic

/-- `EFrame::from_bytes`.  Mirrors the evaluation order of the Rust source:
`bytes[1]` (panic when shorter than 2), the `EHD2` conversion (`Err` on an
unknown discriminator), then for Format1 `bytes[11]`, the property loop, the
two EOJs and the `ESV` conversion; for Format2 the slice `bytes[4..]` (panic
when shorter than 4).  Indices 0–11 read with `getD` in the Format1 arm are in
bounds because `bytes[11]?` succeeded; indices 0–3 in the Format2 arm are in
bounds because of the explicit length test. -/
def EFrame.from_bytes (bytes : List Nat) : RustResult ELError EFrame :=
  match bytes[1]? with
  | none => .panic
  | some b1 =>
    match EHD2.tryFrom b1 with
    | .error e => .err e
    | .ok .format1 =>
      match bytes[11]? with
      | none => .panic
      | some opc =>
        match propsLoop bytes 12 opc with
        | .panic => .panic
        | .err e => .err e
        | .ok props =>
          match ESV.tryFrom (bytes.getD 10 0) with
          | .error e => .err e
          | .ok esv =>
            .ok { ehd1 := bytes.getD 0 0
                  ehd2 := .format1
                  tid := bytes.getD 2 0 * 256 + bytes.getD 3 0
                  edata := .format1 ⟨bytes.getD 4 0, bytes.getD 5 0, bytes.getD 6 0⟩
                      ⟨bytes.getD 7 0, bytes.getD 8 0, bytes.getD 9 0⟩ esv opc props }
    | .ok .format2 =>
      if 4 ≤ bytes.length then
        .ok { ehd1 := bytes.getD 0 0
              ehd2 := .format2
              tid := bytes.getD 2 0 * 256 + bytes.getD 3 0
              edata := .format2 (bytes.drop 4) }
      else .panic

/-- Well-formedness of a property record, as imposed by the Rust types and
the documented invariant `props.len() == opc` / `pdc == edt.len()`:
all bytes fit in `u8` and the length byte matches the data length. -/
def EProp.wfb (p : EProp) : Bool :=
  decide (p.epc < 256) && (p.pdc == p.edt.length) && decide (p.edt.length ≤ 255) &&
    p.edt.all (fun b => decide (b < 256))

/-- Well-formedness of an `EOJ`: three `u8` fields. -/
def EOJ.wfb (e : EOJ) : Bool :=
  decide (e.x1 < 256) && decide (e.x2 < 256) && decide (e.x3 < 256)

/-- Structural validity of a frame: the `u8`/`u16` ranges of the Rust types,
the format tag consistent with the body (in the Rust struct `ehd2` and
`edata` are separate fields; a frame whose `edata` is `Format1 {..}` carries
`ehd2 == EHD2::Format1`, as every frame built by this crate does), the
property count byte equal to the number of properties, and every property
well-formed.  The service code is a member of the `ESV` enumeration by
typing. -/
def EFrame.wfb (f : EFrame) : Bool :=
  decide (f.ehd1 < 256) && decide (f.tid < 65536) &&
    match f.edata with
    | .format1 seoj deoj _esv opc props =>
        (f.ehd2 == .format1) && seoj.wfb && deoj.wfb && (opc == props.length) &&
          decide (props.length ≤ 255) && props.all EProp.wfb
    | .format2 data => (f.ehd2 == .format2) && data.all (fun b => decide (b < 256))

/-! ## Line reader (`read_until_crlf`, `SKSTACK::read_line` in `src/lib.rs`) -/

/-- `memchr::memchr(needle, haystack)`: index of the first occurrence. -/
def memchr (needle : Nat) (l : List Nat) : Option Nat :=
  l.findIdx? (· = needle)

/-- One call of `read_until_crlf` over a scripted byte source.  `chunks` is
the successive contents `fill_buf` returns (a `BufRead` hands back an
arbitrary, timing-dependent prefix of the stream on each call); after the
list is exhausted `fill_buf` returns the empty buffer (end of stream).  The
loop body: find the first CR in the available bytes; when it is immediately
followed by LF *within the same chunk*, append everything through the LF and
stop; otherwise append the whole chunk and continue; a zero-length read
stops the loop.  Returns the accumulated `buf` (the Rust function's byte
count is unused by its caller). -/
def read_until_crlf (chunks : List (List Nat)) (buf : List Nat) : List Nat :=
  match chunks with
  | [] => buf
  | available :: rest =>
    match memchr 13 available with
    | some i =>
      if i + 1 < available.length ∧ available.getD (i + 1) 0 = 10 then
        buf ++ available.take (i + 2)
      else read_until_crlf rest (buf ++ available)
    | none =>
      if available.length = 0 then buf
      else read_until_crlf rest (buf ++ available)

/-- `SKSTACK::read_line`: run `read_until_crlf` on an empty buffer, then
return `buf[..buf.len() - 2]`.  When fewer than two bytes were accumulated
the subtraction/slice panics. -/
def read_line (chunks : List (List Nat)) : RustResult Unit (List Nat) :=
  let buf := read_until_crlf chunks []
  if buf.length < 2 then .panic
  else .ok (buf.take (buf.length - 2))

/-- The `done` condition of one `read_until_crlf` iteration: the chunk's
first CR is immediately followed, inside the same chunk, by LF. -/
def chunkDone (chunk : List Nat) : Bool :=
  match memchr 13 chunk with
  | some i => decide (i + 1 < chunk.length) && (chunk.getD (i + 1) 0 == 10)
  | none => false

/-! ## Hex payload decoding (`decode_hex` in `src/lib.rs`) -/

/-- A decoded text line (`char`s of a Rust `String`). -/
abbrev Line := List Char

/-- `char::to_digit(16)`, written over the code point. -/
def hexVal (c : Char) : Option Nat :=
  let n := c.toNat
  if 48 ≤ n ∧ n ≤ 57 then some (n - 48)
  else if 97 ≤ n ∧ n ≤ 102 then some (n - 97 + 10)
  else if 65 ≤ n ∧ n ≤ 70 then some (n - 65 + 10)
  else none

/-- The digit-accumulation loop of `from_str_radix` (radix 16): `none` on
the first non-digit character. -/
def mapHexVals : Line → Option (List Nat)
  | [] => some []
  | c :: rest =>
    match hexVal c with
    | none => none
    | some v =>
      match mapHexVals rest with
      | none => none
      | some vs => some (v :: vs)

/-- Fold the digit values and enforce the integer type's range (Rust checks
overflow at every step; over `Nat` the accumulator is monotone, so the final
value exceeds `cap` exactly when some step overflows). -/
def parseHexDigits (cap : Nat) (digits : Line) : Option Nat :=
  match mapHexVals digits with
  | none => none
  | some ds =>
    let v := ds.foldl (fun a d => 16 * a + d) 0
    if v ≤ cap then some v else none

/-- `uN::from_str_radix(s, 16)` with the type's maximum `cap`: an optional
leading sign, then at least one hex digit; for an unsigned type a `-` sign
only admits the value zero (every other step underflows). -/
def from_str_radix16 (cap : Nat) (s : Line) : Option Nat :=
  match s with
  | [] => none
  | c :: rest =>
    if c = '+' then (if rest.isEmpty then none else parseHexDigits cap rest)
    else if c = '-' then
      (if rest.isEmpty then none
       else match parseHexDigits cap rest with
            | some 0 => some 0
            | _ => none)
    else parseHexDigits cap (c :: rest)

/-- `decode_hex`: step through the string two characters at a time, parsing
each pair with `u8::from_str_radix`, collecting into a `Result`.  The
iteration is lazy: an invalid pair returns the parse error at once; only
when every complete leading pair parsed does an odd trailing character reach
the slice `s[i..i+2]`, which is out of bounds — a panic. -/
def decode_hex : Line → RustResult Unit (List Nat)
  | [] => .ok []
  | [_] => .panic
  | a :: b :: rest =>
    match from_str_radix16 255 [a, b] with
    | none => .err ()
    | some v =>
      match decode_hex rest with
      | .ok bs => .ok (v :: bs)
      | .err e => .err e
      | .panic => .panic

/-! ## Event parser (`SKSTACK::read_event` in `src/lib.rs`) -/

/-- `SKPan`: one peer descriptor produced by an `EPANDESC` record. -/
structure SKPan where
  channel : Nat
  channel_page : Nat
  pan_id : Nat
  addr : Line
  lqi : Nat
  pair_id : Line
deriving DecidableEq, Repr

/-- `SKEvent`. -/
inductive SKEvent where
  | EVER (version : Line)
  | EPANDESC (pan : SKPan)
  | EVENT (code : Nat) (sender : Line)
  | ERXUDP (sender : Line) (dest : Line) (rport : Nat) (lport : Nat)
      (sender_lla : Line) (secured : Nat) (datalen : Nat) (data : List Nat)
  | Unknown (raw : Line)
deriving DecidableEq, Repr

/-- `Error` in `src/lib.rs` (the I/O-carrying variants keep no payload in
the model; scripted sources never produce them). -/
inductive LibError where
  | strDecode
  | io
  | tty
  | decode (msg : Line)
  | parseInt
  | unexpectedEvent (e : SKEvent)
  | expectOK (line : Line)
deriving DecidableEq, Repr

/-- `str::strip_prefix`. -/
def stripPre : Line → Line → Option Line
  | [], l => some l
  | _ :: _, [] => none
  | p :: ps, c :: cs => if c = p then stripPre ps cs else none

/-- `char::is_whitespace`, restricted to the ASCII whitespace that can occur
on a decoded adapter line. -/
def isWsChar (c : Char) : Bool :=
  c = ' ' || c = '\t' || c = '\n' || c = '\r'

/-- `str::split_whitespace`: maximal runs of non-whitespace characters, in
order, empties skipped.  `cur` is the (reversed) token under construction. -/
def splitWsGo (cur : Line) : Line → List Line
  | [] => if cur.isEmpty then [] else [cur.reverse]
  | c :: rest =>
    if isWsChar c then
      if cur.isEmpty then splitWsGo [] rest
      else cur.reverse :: splitWsGo [] rest
    else splitWsGo (c :: cur) rest

def splitWs (l : Line) : List Line := splitWsGo [] l

/-- `str::split(":")`: segments between colons, empties kept, never empty as
a list. -/
def splitColon : Line → List Line
  | [] => [[]]
  | c :: rest =>
    let r := splitColon rest
    if c = ':' then [] :: r
    else
      match r with
      | [] => [[c]]
      | h :: t => (c :: h) :: t

/-- `Vec::join(" ")` on the tokens remaining after the seventh. -/
def joinSp : List Line → Line
  | [] => []
  | [x] => x
  | x :: xs => x ++ ' ' :: joinSp xs

/-- The `read_field_value` closure of the `EPANDESC` branch, applied to one
already-read line: the line must start with two spaces, the remainder is
split on `:`; the first component is the key (always present), the second
the value (missing → `Decode("missing key")`); a line without the leading
spaces is a `Decode` error carrying the line. -/
def read_field_value (line : Line) : Except LibError Line :=
  match stripPre "  ".data line with
  | none => .error (.decode line)
  | some rest =>
    match splitColon rest with
    | [] => .error (.decode "missing key".data)
    | [_] => .error (.decode "missing key".data)
    | _ :: v :: _ => .ok v

/-- One `read_field_value` call including its `read_line_str`: pull the next
line from the script (end of script panics, as `read_line` does at end of
stream) and extract the field value. -/
def readFieldLine (lines : List Line) : RustResult LibError (Line × List Line) :=
  match lines with
  | [] => .panic
  | line :: rest =>
    match read_field_value line with
    | .ok v => .ok (v, rest)
    | .error e => .err e

/-- Lift `from_str_radix`'s option into the session's error type
(`Error::ParseInt` via the `?` conversion). -/
def ofParse (o : Option Nat) : RustResult LibError Nat :=
  match o with
  | some v => .ok v
  | none => .err .parseInt

/-- The `EPANDESC` branch: six field lines, parsed in fixed order (channel
`u8` hex, channel page `u8` hex, pan id `u16` hex, address raw, LQI `u8`
hex, pairing id raw). -/
def parseEPANDESC (lines : List Line) : RustResult LibError (SKEvent × List Line) := do
  let (v1, l1) ← readFieldLine lines
  let channel ← ofParse (from_str_radix16 255 v1)
  let (v2, l2) ← readFieldLine l1
  let channel_page ← ofParse (from_str_radix16 255 v2)
  let (v3, l3) ← readFieldLine l2
  let pan_id ← ofParse (from_str_radix16 65535 v3)
  let (addr, l4) ← readFieldLine l3
  let (v5, l5) ← readFieldLine l4
  let lqi ← ofParse (from_str_radix16 255 v5)
  let (pair_id, l6) ← readFieldLine l5
  pure (.EPANDESC ⟨channel, channel_page, pan_id, addr, lqi, pair_id⟩, l6)

/-- The `EVENT ` branch: split on whitespace, parse the code (`u8` hex),
take the sender; a missing token is a `Decode` error naming the field. -/
def parseEVENT (rest : Line) (lines : List Line) :
    RustResult LibError (SKEvent × List Line) :=
  let comps := splitWs rest
  match comps[0]? with
  | none => .err (.decode ("failed to get code: ".data ++ rest))
  | some t0 =>
    match from_str_radix16 255 t0 with
    | none => .err .parseInt
    | some code =>
      match comps[1]? with
      | none => .err (.decode ("failed to get sender: ".data ++ rest))
      | some sender => .ok (.EVENT code sender, lines)

/-- The `ERXUDP ` branch: seven leading tokens (sender, dest, rport `u16`,
lport `u16`, sender LLA, secured `u8`, datalen `u16`), then the remaining
tokens joined with spaces and hex-decoded.  No comparison of `datalen`
against `data.len()` is performed. -/
def parseERXUDP (rest : Line) (lines : List Line) :
    RustResult LibError (SKEvent × List Line) :=
  let comps := splitWs rest
  match comps[0]? with
  | none => .err (.decode ("failed to get sender: ".data ++ rest))
  | some sender =>
  match comps[1]? with
  | none => .err (.decode ("failed to get dest: ".data ++ rest))
  | some dest =>
  match comps[2]? with
  | none => .err (.decode ("failed to get rport: ".data ++ rest))
  | some t2 =>
  match from_str_radix16 65535 t2 with
  | none => .err .parseInt
  | some rport =>
  match comps[3]? with
  | none => .err (.decode ("failed to get lport: ".data ++ rest))
  | some t3 =>
  match from_str_radix16 65535 t3 with
  | none => .err .parseInt
  | some lport =>
  match comps[4]? with
  | none => .err (.decode ("failed to get sender_lla: ".data ++ rest))
  | some sender_lla =>
  match comps[5]? with
  | none => .err (.decode ("failed to get secured: ".data ++ rest))
  | some t5 =>
  match from_str_radix16 255 t5 with
  | none => .err .parseInt
  | some secured =>
  match comps[6]? with
  | none => .err (.decode ("failed to get datalen: ".data ++ rest))
  | some t6 =>
  match from_str_radix16 65535 t6 with
  | none => .err .parseInt
  | some datalen =>
  match decode_hex (joinSp (comps.drop 7)) with
  | .panic => .panic
  | .err _ => .err .parseInt
  | .ok data =>
    .ok (.ERXUDP sender dest rport lport sender_lla secured datalen data, lines)

/-- `SKSTACK::read_event` over a scripted sequence of already-framed lines:
read one line (end of script = end of stream, which panics inside
`read_line`), then classify by prefix, in source order: `"EVER "`,
`"EPANDESC"` (a `starts_with` test; consumes six further lines), `"EVENT "`,
`"ERXUDP "`, catch-all `Unknown`.  Returns the event and the unconsumed
script. -/
def read_event (lines : List Line) : RustResult LibError (SKEvent × List Line) :=
  match lines with
  | [] => .panic
  | str :: rest =>
    match stripPre "EVER ".data str with
    | some version => .ok (.EVER version, rest)
    | none =>
      if (stripPre "EPANDESC".data str).isSome then parseEPANDESC rest
      else
        match stripPre "EVENT ".data str with
        | some r => parseEVENT r rest
        | none =>
          match stripPre "ERXUDP ".data str with
          | some r => parseERXUDP r rest
          | none => .ok (.Unknown str, rest)

/-! ## Network sequencer (`SKSTACK::scan`, `SKSTACK::join` in `src/lib.rs`) -/

/-- `consume_ok`: the next line must read exactly `"OK"`. -/
def consume_ok (line : Line) : Except LibError Unit :=
  if line = "OK".data then .ok () else .error (.expectOK line)

/-- The event loop of `SKSTACK::scan`, over a scripted stream of events
(each `read_event` call yields the next event of the script; an exhausted
script is an exhausted byte source, which panics inside `read_line`).
A `EVENT` with code `0x20` must be followed immediately by an `EPANDESC`,
whose descriptor is pushed; any other follower is an `UnexpectedEvent`
error.  An `EVENT` with code `0x22` breaks the loop, returning the
collection.  Anything else is an `UnexpectedEvent` error. -/
def scanLoop (events : List SKEvent) (found : List SKPan) :
    RustResult LibError (List SKPan) :=
  match events with
  | [] => .panic
  | e :: rest =>
    match e with
    | .EVENT code _ =>
      if code = 0x20 then
        match rest with
        | [] => .panic
        | e2 :: rest2 =>
          match e2 with
          | .EPANDESC pan => scanLoop rest2 (found ++ [pan])
          | _ => .err (.unexpectedEvent e2)
      else if code = 0x22 then .ok found
      else .err (.unexpectedEvent e)
    | _ => .err (.unexpectedEvent e)
termination_by events.length
decreasing_by simp [List.length_cons]; omega

/-- `SKSTACK::scan` after the `SKSCAN` write and the echo line: require
`OK`, then run the event loop with an empty collection. -/
def scan (ack : Line) (events : List SKEvent) : RustResult LibError (List SKPan) :=
  match consume_ok ack with
  | .error e => .err e
  | .ok () => scanLoop events []

/-- The event loop of `SKSTACK::join`: an `EVENT` with code `0x25` breaks
the loop successfully; an `EVENT` with code `0x24` returns
`UnexpectedEvent` carrying that event; every other event is skipped. -/
def joinLoop : List SKEvent → RustResult LibError Unit
  | [] => .panic
  | e :: rest =>
    match e with
    | .EVENT code _ =>
      if code = 0x25 then .ok ()
      else if code = 0x24 then .err (.unexpectedEvent e)
      else joinLoop rest
    | _ => joinLoop rest

/-- `SKSTACK::join` after the `SKJOIN` write and the echo line: require
`OK`, then run the event loop. -/
def join (ack : Line) (events : List SKEvent) : RustResult LibError Unit :=
  match consume_ok ack with
  | .error e => .err e
  | .ok () => joinLoop events

/-! ## Helper lemmas -/

theorem ESV.tryFrom_toNat (esv : ESV) : ESV.tryFrom esv.toNat = .ok esv := by
  cases esv <;> rfl

/-- Decoding the flat wire image of a well-formed property list, placed after
an arbitrary prefix, recovers exactly the list. -/
theorem propsLoop_append : ∀ (props : List EProp) (pre : List Nat),
    (∀ p ∈ props, p.pdc = p.edt.length) →
    propsLoop (pre ++ propsFlat props) pre.length props.length = .ok props
  | [], pre, _ => by simp [propsLoop, propsFlat]
  | p :: rest, pre, hv => by
    have hp : p.pdc = p.edt.length := hv p (by simp)
    have hv' : ∀ q ∈ rest, q.pdc = q.edt.length := fun q hq => hv q (by simp [hq])
    have hflat : propsFlat (p :: rest) = (p.epc :: p.pdc :: p.edt) ++ propsFlat rest := by
      simp [propsFlat, EProp.as_bytes]
    rw [hflat]
    have h1 : (pre ++ ((p.epc :: p.pdc :: p.edt) ++ propsFlat rest))[pre.length]?
        = some p.epc := by
      rw [List.getElem?_append_right (Nat.le_refl _)]
      simp
    have h2 : (pre ++ ((p.epc :: p.pdc :: p.edt) ++ propsFlat rest))[pre.length + 1]?
        = some p.pdc := by
      rw [List.getElem?_append_right (by omega)]
      simp
    have hlen : pre.length + 2 + p.pdc
        ≤ (pre ++ ((p.epc :: p.pdc :: p.edt) ++ propsFlat rest)).length := by
      simp [hp]
      omega
    have hedt : ((pre ++ ((p.epc :: p.pdc :: p.edt) ++ propsFlat rest)).drop
        (pre.length + 2)).take p.pdc = p.edt := by
      have hb : pre ++ ((p.epc :: p.pdc :: p.edt) ++ propsFlat rest)
          = (pre ++ [p.epc, p.pdc]) ++ (p.edt ++ propsFlat rest) := by simp
      have hl : pre.length + 2 = (pre ++ [p.epc, p.pdc]).length := by simp
      rw [hb, hl, List.drop_left, hp, List.take_left]
    have hrec : propsLoop (pre ++ ((p.epc :: p.pdc :: p.edt) ++ propsFlat rest))
        (pre.length + 2 + p.pdc) rest.length = .ok rest := by
      have hb : pre ++ ((p.epc :: p.pdc :: p.edt) ++ propsFlat rest)
          = (pre ++ (p.epc :: p.pdc :: p.edt)) ++ propsFlat rest := by simp
      have hc : pre.length + 2 + p.pdc = (pre ++ (p.epc :: p.pdc :: p.edt)).length := by
        simp [hp]
        omega
      rw [hb, hc, propsLoop_append rest _ hv']
    simp only [List.length_cons, propsLoop, h1, h2]
    rw [if_pos hlen, hrec, hedt]

/-- Decoding a strictly truncated flat wire image of a well-formed property
list panics: some indexed read or slice falls past the end of the buffer. -/
theorem propsLoop_truncated : ∀ (props : List EProp) (pre : List Nat) (m : Nat),
    (∀ p ∈ props, p.pdc = p.edt.length) →
    m < (propsFlat props).length →
    propsLoop (pre ++ (propsFlat props).take m) pre.length props.length = .panic
  | [], _, m, _, hm => by simp [propsFlat] at hm
  | p :: rest, pre, m, hv, hm => by
    have hp : p.pdc = p.edt.length := hv p (by simp)
    have hv' : ∀ q ∈ rest, q.pdc = q.edt.length := fun q hq => hv q (by simp [hq])
    have hflat : propsFlat (p :: rest) = p.epc :: p.pdc :: (p.edt ++ propsFlat rest) := by
      simp [propsFlat, EProp.as_bytes]
    rw [hflat] at hm ⊢
    simp only [List.length_cons, List.length_append] at hm
    match m with
    | 0 =>
      have h1 : (pre ++ List.take 0
          (p.epc :: p.pdc :: (p.edt ++ propsFlat rest)))[pre.length]? = none := by
        simp
      simp only [List.length_cons, propsLoop, h1]
    | 1 =>
      have h1 : (pre ++ List.take 1
          (p.epc :: p.pdc :: (p.edt ++ propsFlat rest)))[pre.length]? = some p.epc := by
        rw [List.getElem?_append_right (Nat.le_refl _)]
        simp
      have h2 : (pre ++ List.take 1
          (p.epc :: p.pdc :: (p.edt ++ propsFlat rest)))[pre.length + 1]? = none := by
        apply List.getElem?_eq_none
        simp
      simp only [List.length_cons, propsLoop, h1, h2]
    | m2 + 2 =>
      have htk : List.take (m2 + 2) (p.epc :: p.pdc :: (p.edt ++ propsFlat rest))
          = p.epc :: p.pdc :: (p.edt ++ propsFlat rest).take m2 := by
        simp
      rw [htk]
      have h1 : (pre ++ (p.epc :: p.pdc ::
          (p.edt ++ propsFlat rest).take m2))[pre.length]? = some p.epc := by
        rw [List.getElem?_append_right (Nat.le_refl _)]
        simp
      have h2 : (pre ++ (p.epc :: p.pdc ::
          (p.edt ++ propsFlat rest).take m2))[pre.length + 1]? = some p.pdc := by
        rw [List.getElem?_append_right (by omega)]
        simp
      by_cases hc : pre.length + 2 + p.pdc
          ≤ (pre ++ (p.epc :: p.pdc :: (p.edt ++ propsFlat rest).take m2)).length
      · have hm2 : p.edt.length ≤ m2 := by
          simp [List.length_take] at hc
          omega
        have htail : (p.edt ++ propsFlat rest).take m2
            = p.edt ++ (propsFlat rest).take (m2 - p.edt.length) := by
          rw [List.take_append_eq_append_take, List.take_of_length_le (by omega)]
        have hm' : m2 - p.edt.length < (propsFlat rest).length := by omega
        have hrec : propsLoop (pre ++ (p.epc :: p.pdc :: (p.edt ++ propsFlat rest).take m2))
            (pre.length + 2 + p.pdc) rest.length = .panic := by
          have hb : pre ++ (p.epc :: p.pdc :: (p.edt ++ propsFlat rest).take m2)
              = (pre ++ (p.epc :: p.pdc :: p.edt))
                ++ (propsFlat rest).take (m2 - p.edt.length) := by
            rw [htail]
            simp
          have hcur : pre.length + 2 + p.pdc = (pre ++ (p.epc :: p.pdc :: p.edt)).length := by
            simp [hp]
            omega
          rw [hb, hcur, propsLoop_truncated rest _ _ hv' hm']
        simp only [List.length_cons, propsLoop, h1, h2]
        rw [if_pos hc, hrec]
      · simp only [List.length_cons, propsLoop, h1, h2]
        rw [if_neg hc]

/-- On a successful decode, the frame's `ehd1` field is a verbatim copy of
`bytes[0]` and `bytes[1]` holds the byte of the decoded format tag. -/
theorem from_bytes_ok_fields (bytes : List Nat) (f : EFrame)
    (h : EFrame.from_bytes bytes = .ok f) :
    f.ehd1 = bytes.getD 0 0 ∧ bytes[1]? = some f.ehd2.toNat := by
  rw [EFrame.from_bytes] at h
  split at h
  · exact absurd h (by simp)
  · rename_i b1 hb1
    split at h
    · exact absurd h (by simp)
    · rename_i heq
      have hb : b1 = 0x81 := by
        rw [EHD2.tryFrom] at heq
        split at heq
        · assumption
        · split at heq
          · exact absurd heq (by simp)
          · exact absurd heq (by simp)
      subst hb
      split at h
      · exact absurd h (by simp)
      · split at h
        · exact absurd h (by simp)
        · exact absurd h (by simp)
        · split at h
          · exact absurd h (by simp)
          · cases h
            exact ⟨rfl, by rw [hb1]; rfl⟩
    · rename_i heq
      have hb : b1 = 0x82 := by
        rw [EHD2.tryFrom] at heq
        split at heq
        · exact absurd heq (by simp)
        · split at heq
          · assumption
          · exact absurd heq (by simp)
      subst hb
      split at h
      · cases h
        exact ⟨rfl, by rw [hb1]; rfl⟩
      · exact absurd h (by simp)

/-! ## Claims about the frame codec -/

/-- C1 (confirmed): for every structurally valid frame — the `opc` byte
equals the number of properties, each property's `pdc` byte equals its data
length, the service code is a member of the `ESV` enumeration (here by
typing), and the fields are within their Rust integer ranges with the format
tag matching the body — decoding the bytes produced by encoding yields a
frame equal to the original field for field, for Format1 and Format2
alike. -/
theorem c1_frame_round_trip (f : EFrame) (h : f.wfb = true) :
    EFrame.from_bytes f.as_bytes = .ok f := by
  obtain ⟨ehd1, ehd2, tid, edata⟩ := f
  cases edata with
  | format2 data =>
    simp only [EFrame.wfb, Bool.and_eq_true, beq_iff_eq, decide_eq_true_eq] at h
    obtain ⟨-, h2, -⟩ := h
    subst h2
    simp [EFrame.as_bytes, EHD2.toNat, EFrame.from_bytes, EHD2.tryFrom, List.getD]
    omega
  | format1 seoj deoj esv opc props =>
    simp only [EFrame.wfb, Bool.and_eq_true, beq_iff_eq, decide_eq_true_eq,
      List.all_eq_true] at h
    obtain ⟨⟨-, -⟩, ⟨⟨⟨⟨h2, -⟩, -⟩, hopc⟩, -⟩, hall⟩ := h
    subst h2
    subst hopc
    have hv : ∀ p ∈ props, p.pdc = p.edt.length := by
      intro p hp
      have := hall p hp
      simp only [EProp.wfb, Bool.and_eq_true, beq_iff_eq, decide_eq_true_eq] at this
      exact this.1.1.2
    obtain ⟨x1, x2, x3⟩ := seoj
    obtain ⟨y1, y2, y3⟩ := deoj
    have hbytes : EFrame.as_bytes
        ⟨ehd1, .format1, tid, .format1 ⟨x1, x2, x3⟩ ⟨y1, y2, y3⟩ esv props.length props⟩
        = [ehd1, 0x81, tid / 256, tid % 256, x1, x2, x3, y1, y2, y3, esv.toNat, props.length]
          ++ propsFlat props := by
      simp [EFrame.as_bytes, EHD2.toNat, EOJ.as_bytes]
    rw [hbytes]
    have hloop := propsLoop_append props
      [ehd1, 0x81, tid / 256, tid % 256, x1, x2, x3, y1, y2, y3, esv.toNat, props.length] hv
    norm_num [List.cons_append] at hloop
    have htid : tid / 256 * 256 + tid % 256 = tid := by omega
    simp [EFrame.from_bytes, EHD2.tryFrom, hloop, ESV.tryFrom_toNat, List.getD, htid]

/-- C1 witness: a concrete Format1 frame with one two-byte property survives
the round trip. -/
theorem c1_frame_round_trip_witness :
    EFrame.from_bytes (EFrame.as_bytes
      ⟨0x10, .format1, 0x1234, .format1 ⟨5, 255, 1⟩ ⟨2, 136, 1⟩ .Get 1 [⟨0xE7, 2, [7, 8]⟩]⟩)
    = .ok ⟨0x10, .format1, 0x1234,
        .format1 ⟨5, 255, 1⟩ ⟨2, 136, 1⟩ .Get 1 [⟨0xE7, 2, [7, 8]⟩]⟩ :=
  c1_frame_round_trip _ (by decide)

/-- C2 counterexample: the claim says a truncated Format1 buffer yields a
`Truncated` error; on the buffer `[0x10, 0x81]` (a well-formed Format1
header cut short of its fixed 12 bytes) decode panics — an out-of-bounds
index, not a returned error of any kind.  The codec's error type has no
truncation case at all. -/
theorem c2_truncated_panics_counterexample :
    EFrame.from_bytes [0x10, 0x81] = .panic ∧
    ∀ e : ELError, EFrame.from_bytes [0x10, 0x81] ≠ .err e := by
  have h : EFrame.from_bytes [0x10, 0x81] = .panic := by decide
  refine ⟨h, fun e he => ?_⟩
  rw [h] at he
  exact RustResult.noConfusion he

/-- C2 amended (corrected): for every structurally valid Format1 frame, a
strict prefix of its encoding that still contains the format discriminator
(length at least 2 but less than the full encoding) makes decode panic with
an out-of-bounds read — inside the fixed 12-byte header or inside a declared
property's code byte, length byte, or data bytes — rather than return a
`Truncated` error (which the code does not define). -/
theorem c2_truncated_amended (f : EFrame) (h : f.wfb = true)
    (hf : f.ehd2 = .format1) (k : Nat) (hk2 : 2 ≤ k) (hk : k < f.as_bytes.length) :
    EFrame.from_bytes (f.as_bytes.take k) = .panic := by
  obtain ⟨ehd1, ehd2, tid, edata⟩ := f
  cases edata with
  | format2 data =>
    simp only [EFrame.wfb, Bool.and_eq_true, beq_iff_eq, decide_eq_true_eq] at h
    obtain ⟨-, h2, -⟩ := h
    simp only at hf
    rw [h2] at hf
    exact absurd hf (by simp)
  | format1 seoj deoj esv opc props =>
    simp only [EFrame.wfb, Bool.and_eq_true, beq_iff_eq, decide_eq_true_eq,
      List.all_eq_true] at h
    obtain ⟨⟨-, -⟩, ⟨⟨⟨⟨-, -⟩, -⟩, hopc⟩, -⟩, hall⟩ := h
    subst hopc
    have hv : ∀ p ∈ props, p.pdc = p.edt.length := by
      intro p hp
      have := hall p hp
      simp only [EProp.wfb, Bool.and_eq_true, beq_iff_eq, decide_eq_true_eq] at this
      exact this.1.1.2
    simp only at hf
    subst hf
    obtain ⟨x1, x2, x3⟩ := seoj
    obtain ⟨y1, y2, y3⟩ := deoj
    have hbytes : EFrame.as_bytes
        ⟨ehd1, .format1, tid, .format1 ⟨x1, x2, x3⟩ ⟨y1, y2, y3⟩ esv props.length props⟩
        = [ehd1, 0x81, tid / 256, tid % 256, x1, x2, x3, y1, y2, y3, esv.toNat, props.length]
          ++ propsFlat props := by
      simp [EFrame.as_bytes, EHD2.toNat, EOJ.as_bytes]
    rw [hbytes] at hk ⊢
    simp only [List.length_append, List.length_cons, List.length_nil] at hk
    by_cases h12 : k < 12
    · have h1 : (([ehd1, 0x81, tid / 256, tid % 256, x1, x2, x3, y1, y2, y3, esv.toNat,
          props.length] ++ propsFlat props).take k)[1]? = some 0x81 := by
        rw [List.getElem?_take]
        simp [hk2]
        omega
      have h11 : (([ehd1, 0x81, tid / 256, tid % 256, x1, x2, x3, y1, y2, y3, esv.toNat,
          props.length] ++ propsFlat props).take k)[11]? = none := by
        apply List.getElem?_eq_none
        simp
        omega
      simp only [List.cons_append, List.nil_append] at h1 h11
      simp [EFrame.from_bytes, h1, h11, EHD2.tryFrom]
    · push_neg at h12
      have htk : ([ehd1, 0x81, tid / 256, tid % 256, x1, x2, x3, y1, y2, y3, esv.toNat,
          props.length] ++ propsFlat props).take k
          = [ehd1, 0x81, tid / 256, tid % 256, x1, x2, x3, y1, y2, y3, esv.toNat,
              props.length] ++ (propsFlat props).take (k - 12) := by
        rw [List.take_append_eq_append_take, List.take_of_length_le (by simp; omega)]
        simp
      rw [htk]
      have hloop := propsLoop_truncated props
        [ehd1, 0x81, tid / 256, tid % 256, x1, x2, x3, y1, y2, y3, esv.toNat, props.length]
        (k - 12) hv (by omega)
      norm_num [List.cons_append] at hloop
      simp [EFrame.from_bytes, EHD2.tryFrom, hloop]

/-- C2 amended, witness: cutting the concrete one-property frame's 16-byte
encoding to 13 bytes (truncating inside the property's data) panics. -/
theorem c2_truncated_amended_witness :
    EFrame.from_bytes ((EFrame.as_bytes
      ⟨0x10, .format1, 0x1234, .format1 ⟨5, 255, 1⟩ ⟨2, 136, 1⟩ .Get 1 [⟨0xE7, 2, [7, 8]⟩]⟩).take 13)
    = .panic :=
  c2_truncated_amended _ (by decide) (by decide) 13 (by decide) (by decide)

/-- C9 (confirmed): on any buffer of length at least 2 whose second byte is
neither `0x81` nor `0x82`, decode returns the enum-conversion error (the
code's rendering of `InvalidEnumValue`) for that byte; and whenever decode
succeeds, a second byte of `0x81` yields a Format1 frame and `0x82` a
Format2 frame. -/
theorem c9_discriminator (bytes : List Nat) (hlen : 2 ≤ bytes.length) :
    (bytes.getD 1 0 ≠ 0x81 → bytes.getD 1 0 ≠ 0x82 →
      EFrame.from_bytes bytes = .err (.tryFromPrimitive "EHD2" (bytes.getD 1 0))) ∧
    (∀ f, EFrame.from_bytes bytes = .ok f →
      (bytes.getD 1 0 = 0x81 → f.ehd2 = .format1) ∧
      (bytes.getD 1 0 = 0x82 → f.ehd2 = .format2)) := by
  obtain ⟨b1, hb⟩ : ∃ b, bytes[1]? = some b := by
    rcases hx : bytes[1]? with _ | b
    · rw [List.getElem?_eq_none_iff] at hx
      omega
    · exact ⟨b, rfl⟩
  have hgd : bytes.getD 1 0 = b1 := by
    rw [List.getD_eq_getElem?_getD, hb]
    rfl
  rw [hgd]
  constructor
  · intro h81 h82
    simp [EFrame.from_bytes, hb, EHD2.tryFrom, h81, h82]
  · intro f hf
    have hfields := from_bytes_ok_fields bytes f hf
    rw [hb] at hfields
    have htn : f.ehd2.toNat = b1 := by
      have h2 := hfields.2
      simp only [Option.some.injEq] at h2
      omega
    constructor
    · intro h81
      rw [← htn] at h81
      cases hehd : f.ehd2
      · rfl
      · rw [hehd] at h81
        simp [EHD2.toNat] at h81
    · intro h82
      rw [← htn] at h82
      cases hehd : f.ehd2
      · rw [hehd] at h82
        simp [EHD2.toNat] at h82
      · rfl

/-- C9 witness: the buffer `[0x10, 0x99]` is rejected with the enum error
for byte `0x99`. -/
theorem c9_discriminator_witness :
    EFrame.from_bytes [0x10, 0x99]
      = .err (.tryFromPrimitive "EHD2" ([0x10, 0x99].getD 1 0)) :=
  (c9_discriminator [0x10, 0x99] (by decide)).1 (by decide) (by decide)

/-- C10 (confirmed): decode never validates the fixed header byte: every
successful decode copies `bytes[0]` verbatim into `ehd1`, and a buffer whose
first byte is not `0x10` still decodes successfully. -/
theorem c10_header_unvalidated :
    (∀ (bytes : List Nat) (f : EFrame),
      EFrame.from_bytes bytes = .ok f → f.ehd1 = bytes.getD 0 0) ∧
    (∃ f, EFrame.from_bytes [0xFF, 0x82, 0, 0] = .ok f ∧ f.ehd1 ≠ 0x10) := by
  constructor
  · intro bytes f h
    exact (from_bytes_ok_fields bytes f h).1
  · exact ⟨⟨0xFF, .format2, 0, .format2 []⟩, by decide, by decide⟩

/-- C10 witness: the corrupt-header buffer `[0xFF, 0x82, 0, 0]` decodes
successfully and its `ehd1` field is the copied first byte `0xFF`. -/
theorem c10_header_unvalidated_witness :
    (⟨0xFF, .format2, 0, .format2 []⟩ : EFrame).ehd1 = [0xFF, 0x82, 0, 0].getD 0 0 :=
  c10_header_unvalidated.1 [0xFF, 0x82, 0, 0] ⟨0xFF, .format2, 0, .format2 []⟩ (by decide)

/-! ## Claims about the line reader -/

/-- A nonempty chunk whose `done` condition fails is appended whole and the
loop continues with the next chunk. -/
theorem read_until_crlf_skip (chunk : List Nat) (hne : chunk ≠ [])
    (hdone : chunkDone chunk = false) (rest : List (List Nat)) (buf : List Nat) :
    read_until_crlf (chunk :: rest) buf = read_until_crlf rest (buf ++ chunk) := by
  cases hm : memchr 13 chunk with
  | none =>
    simp only [read_until_crlf, hm]
    rw [if_neg]
    intro hlen
    exact hne (List.length_eq_zero.mp hlen)
  | some i =>
    simp only [read_until_crlf, hm]
    rw [if_neg]
    intro hcond
    rw [chunkDone, hm] at hdone
    simp only [Bool.and_eq_false_iff, decide_eq_false_iff_not, beq_eq_false_iff_ne] at hdone
    rcases hdone with h | h
    · exact h hcond.1
    · exact h hcond.2

/-- When no chunk satisfies the `done` condition and none is empty, the loop
runs to end of stream and the buffer accumulates every chunk. -/
theorem read_until_crlf_eof : ∀ (chunks : List (List Nat)) (buf : List Nat),
    (∀ c ∈ chunks, c ≠ []) → (∀ c ∈ chunks, chunkDone c = false) →
    read_until_crlf chunks buf = buf ++ chunks.flatten
  | [], buf, _, _ => by simp [read_until_crlf]
  | c :: rest, buf, h1, h2 => by
    rw [read_until_crlf_skip c (h1 c (by simp)) (h2 c (by simp)) rest buf,
      read_until_crlf_eof rest (buf ++ c) (fun d hd => h1 d (by simp [hd]))
        (fun d hd => h2 d (by simp [hd]))]
    simp

/-- C3 (code bug): the split-independence the claim states fails.  With the
stream delivered as the single read `"a\r\nb\r\n"` the first CRLF is found
and the line is `"a"` (bytes `[97]`); with the same stream split as
`"a\r"` then `"\nb\r\n"` the CR is consumed at the end of the first chunk,
the split CRLF is never recognised as a terminator, and the reader runs on
to return `"a\r\nb"` (bytes `[97, 13, 10, 98]`) — a different line for the
same byte sequence. -/
theorem c3_split_dependence :
    read_line [[97, 13], [10, 98, 13, 10]] = .ok [97, 13, 10, 98] ∧
    read_line [[97, 13, 10, 98, 13, 10]] = .ok [97] ∧
    ([97, 13, 10, 98] : List Nat) ≠ [97] := by decide

/-- C6 counterexample: the claim says end of stream before a terminator
returns exactly the accumulated partial data (an empty result for an empty
stream, nothing stripped).  `read_line` on an empty stream panics (the
subtraction `buf.len() - 2` underflows), and on the un-terminated stream
`"ab"` it strips the two non-terminator bytes and returns the empty line. -/
theorem c6_eof_counterexample :
    read_line [] = .panic ∧
    read_line [[97, 98]] = .ok [] ∧ ([] : List Nat) ≠ [97, 98] := by decide

/-- C6 amended (corrected): at end of stream before any CRLF terminator the
inner loop `read_until_crlf` does terminate without error holding exactly
the accumulated partial data; but `read_line` then unconditionally removes
the final two bytes of that buffer, so a partial un-terminated line loses
its last two bytes, and a buffer of fewer than two bytes (in particular an
empty stream) panics instead of yielding an empty result. -/
theorem c6_eof_amended (chunks : List (List Nat))
    (h1 : ∀ c ∈ chunks, c ≠ []) (h2 : ∀ c ∈ chunks, chunkDone c = false) :
    read_until_crlf chunks [] = chunks.flatten ∧
    (chunks.flatten.length < 2 → read_line chunks = .panic) ∧
    (2 ≤ chunks.flatten.length →
      read_line chunks = .ok (chunks.flatten.take (chunks.flatten.length - 2))) := by
  have he : read_until_crlf chunks [] = chunks.flatten := by
    simpa using read_until_crlf_eof chunks [] h1 h2
  refine ⟨he, ?_, ?_⟩
  · intro hlt
    simp only [read_line, he]
    rw [if_pos hlt]
  · intro hge
    simp only [read_line, he]
    rw [if_neg (by omega)]

/-- C6 amended, witness: the un-terminated stream `"abc"` loses its final
two bytes. -/
theorem c6_eof_amended_witness : read_line [[97, 98, 99]] = .ok [97] := by
  have h := (c6_eof_amended [[97, 98, 99]] (by decide) (by decide)).2.2 (by decide)
  simpa using h

/-! ## Claims about the event parser's hex payload -/

/-- Spec-side description of hex decoding (`2 hex characters per byte`, in
textual pair order), to compare with the source's `decode_hex`. -/
def hexPairsSpec : Line → List Nat
  | a :: b :: rest => ((hexVal a).getD 0 * 16 + (hexVal b).getD 0) :: hexPairsSpec rest
  | _ => []

theorem hexVal_le_15 (c : Char) (v : Nat) (h : hexVal c = some v) : v ≤ 15 := by
  rw [hexVal] at h
  split at h
  · cases h
    omega
  · split at h
    · cases h
      omega
    · split at h
      · cases h
        omega
      · exact absurd h (by simp)

theorem hexVal_ne_sign (c : Char) (v : Nat) (h : hexVal c = some v) :
    c ≠ '+' ∧ c ≠ '-' := by
  constructor
  · intro hc
    subst hc
    simp [hexVal] at h
  · intro hc
    subst hc
    simp [hexVal] at h

/-- Parsing a two-character string of hex digits yields the digit values in
place-value order. -/
theorem from_str_radix16_pair (a b : Char) (va vb : Nat)
    (ha : hexVal a = some va) (hb : hexVal b = some vb) :
    from_str_radix16 255 [a, b] = some (va * 16 + vb) := by
  obtain ⟨hap, ham⟩ := hexVal_ne_sign a va ha
  rw [from_str_radix16, if_neg hap, if_neg ham]
  rw [parseHexDigits]
  simp only [mapHexVals, ha, hb]
  have h1 := hexVal_le_15 a va ha
  have h2 := hexVal_le_15 b vb hb
  simp only [List.foldl]
  rw [if_pos (by omega)]
  congr 1
  omega

/-- A successful `decode_hex` consumed an even-length string, two characters
per output byte. -/
theorem decode_hex_length : ∀ (s : Line) (bs : List Nat),
    decode_hex s = .ok bs → 2 * bs.length = s.length
  | [], bs, h => by
    simp [decode_hex] at h
    simp [← h]
  | [c], bs, h => by simp [decode_hex] at h
  | a :: b :: rest, bs, h => by
    rw [decode_hex] at h
    split at h
    · exact absurd h (by simp)
    · split at h
      · rename_i bs' hbs'
        cases h
        have := decode_hex_length rest bs' hbs'
        simp only [List.length_cons]
        omega
      · exact absurd h (by simp)
      · exact absurd h (by simp)

/-- On an odd-length string, `decode_hex` never returns bytes: either some
complete leading pair fails to parse (the error) or the final lone
character's slice `s[i..i+2]` runs out of bounds (the panic). -/
theorem decode_hex_odd : ∀ (s : Line), s.length % 2 = 1 →
    decode_hex s = .panic ∨ decode_hex s = .err ()
  | [], h => by simp at h
  | [c], _ => by
    left
    rfl
  | a :: b :: rest, h => by
    have hodd : rest.length % 2 = 1 := by
      simp only [List.length_cons] at h
      omega
    rw [decode_hex]
    cases hr : from_str_radix16 255 [a, b] with
    | none =>
      right
      rfl
    | some v =>
      rcases decode_hex_odd rest hodd with hp | he
      · rw [hp]
        left
        rfl
      · rw [he]
        right
        rfl

/-- On an even-length string of hex digits, `decode_hex` returns the bytes
in textual pair order. -/
theorem decode_hex_even_ok : ∀ (s : Line), s.length % 2 = 0 →
    (∀ c ∈ s, (hexVal c).isSome) → decode_hex s = .ok (hexPairsSpec s)
  | [], _, _ => rfl
  | [c], h, _ => by simp at h
  | a :: b :: rest, hev, hall => by
    obtain ⟨va, hva⟩ := Option.isSome_iff_exists.mp (hall a (by simp))
    obtain ⟨vb, hvb⟩ := Option.isSome_iff_exists.mp (hall b (by simp))
    have hev' : rest.length % 2 = 0 := by
      simp only [List.length_cons] at hev
      omega
    rw [decode_hex, from_str_radix16_pair a b va vb hva hvb,
      decode_hex_even_ok rest hev' (fun c hc => hall c (by simp [hc]))]
    rw [hexPairsSpec, hva, hvb]
    rfl

/-- C7 counterexample: the claim says every successfully decoded `ERXUDP`
line satisfies `payload.length == declared_length`.  The line
`"ERXUDP A B 0 0 C 0 1 DEAD"` declares length 1 but parses successfully
with a two-byte payload `[0xDE, 0xAD]` — the parser never compares the
two. -/
theorem c7_length_counterexample :
    read_event ["ERXUDP A B 0 0 C 0 1 DEAD".data]
      = .ok (.ERXUDP "A".data "B".data 0 0 "C".data 0 1 [0xDE, 0xAD], []) ∧
    ([0xDE, 0xAD] : List Nat).length ≠ 1 := by
  constructor
  · decide
  · decide

/-- C7 amended (corrected): the decoded payload's byte length equals half
the character length of the hex blob — the quantity actually decoded — and
is never checked against the declared length field, which can disagree while
parsing still succeeds (as on the concrete mismatching line below). -/
theorem c7_length_amended :
    (∀ (s : Line) (bs : List Nat), decode_hex s = .ok bs → 2 * bs.length = s.length) ∧
    read_event ["ERXUDP A B 0 0 C 0 1 DEAD".data]
      = .ok (.ERXUDP "A".data "B".data 0 0 "C".data 0 1 [0xDE, 0xAD], []) :=
  ⟨decode_hex_length, by decide⟩

/-- C7 amended, witness: the four-character blob `"DEAD"` decodes to exactly
two bytes. -/
theorem c7_length_amended_witness :
    2 * ([0xDE, 0xAD] : List Nat).length = ("DEAD".data : Line).length :=
  c7_length_amended.1 "DEAD".data [0xDE, 0xAD] (by decide)

/-- C8 counterexample: the claim says an odd-length hex blob makes parsing
return an error value.  On `"ERXUDP A B 0 0 C 0 1 AAA"` the parser panics
(the slice `s[2..4]` of the three-character blob is out of bounds) and in
particular returns no error. -/
theorem c8_odd_blob_counterexample :
    read_event ["ERXUDP A B 0 0 C 0 1 AAA".data] = .panic ∧
    ∀ e : LibError, read_event ["ERXUDP A B 0 0 C 0 1 AAA".data] ≠ .err e := by
  have h : read_event ["ERXUDP A B 0 0 C 0 1 AAA".data] = .panic := by decide
  refine ⟨h, fun e he => ?_⟩
  rw [h] at he
  exact RustResult.noConfusion he

/-- C8 amended (corrected): an odd-length blob never decodes to bytes — it
either panics (when every complete leading pair is valid hex, the lone
trailing character's two-character slice is out of bounds) or reports the
parse error of an earlier invalid pair; an even-length blob of valid hex
digit pairs decodes to the bytes in textual pair order. -/
theorem c8_odd_blob_amended :
    (∀ s : Line, s.length % 2 = 1 →
      decode_hex s = .panic ∨ decode_hex s = .err ()) ∧
    (∀ s : Line, s.length % 2 = 0 → (∀ c ∈ s, (hexVal c).isSome) →
      decode_hex s = .ok (hexPairsSpec s)) :=
  ⟨decode_hex_odd, decode_hex_even_ok⟩

/-- C8 amended, witness: the odd blob `"ABC"` panics or errors (here it
panics), and the even blob `"DEAD"` decodes to its pair values. -/
theorem c8_odd_blob_amended_witness :
    (decode_hex "ABC".data = .panic ∨ decode_hex "ABC".data = .err ()) ∧
    decode_hex "DEAD".data = .ok (hexPairsSpec "DEAD".data) :=
  ⟨c8_odd_blob_amended.1 "ABC".data (by decide),
   c8_odd_blob_amended.2 "DEAD".data (by decide) (by decide)⟩

/-! ## Claims about the network sequencer -/

/-- C4 (confirmed): the scan loop, over any scripted event stream: a
notification with code `0x20` must be immediately followed by a peer
descriptor, which is appended to the collection, and any other follower
fails with `UnexpectedEvent`; a notification with code `0x22` terminates the
loop returning the collection gathered so far (possibly empty); any other
event — a notification with a different code or a non-notification — fails
with `UnexpectedEvent`; the operation first requires the `OK`
acknowledgement; and the concrete stream of two found-candidate pairs
followed by scan-complete returns exactly the two peers in encounter
order. -/
theorem c4_scan_sequencing (p : SKPan) (s : Line) (e : SKEvent)
    (rest : List SKEvent) (found : List SKPan) :
    scanLoop (.EVENT 0x20 s :: .EPANDESC p :: rest) found
      = scanLoop rest (found ++ [p]) ∧
    ((∀ q, e ≠ .EPANDESC q) →
      scanLoop (.EVENT 0x20 s :: e :: rest) found = .err (.unexpectedEvent e)) ∧
    scanLoop (.EVENT 0x22 s :: rest) found = .ok found ∧
    ((∀ c s2, e ≠ .EVENT c s2) →
      scanLoop (e :: rest) found = .err (.unexpectedEvent e)) ∧
    (∀ c, c ≠ 0x20 → c ≠ 0x22 →
      scanLoop (.EVENT c s :: rest) found = .err (.unexpectedEvent (.EVENT c s))) ∧
    (∀ ack, ack ≠ "OK".data → scan ack rest = .err (.expectOK ack)) ∧
    (∀ (p2 : SKPan) (s1 s2 s3 : Line), scan "OK".data
      [.EVENT 0x20 s1, .EPANDESC p, .EVENT 0x20 s2, .EPANDESC p2, .EVENT 0x22 s3]
      = .ok [p, p2]) := by
  refine ⟨?_, ?_, ?_, ?_, ?_, ?_, ?_⟩
  · rw [scanLoop.eq_def]
    simp
  · intro h
    cases e with
    | EPANDESC q => exact absurd rfl (h q)
    | EVER v =>
      rw [scanLoop.eq_def]
      simp
    | EVENT c s2 =>
      rw [scanLoop.eq_def]
      simp
    | ERXUDP a b c d f g i j =>
      rw [scanLoop.eq_def]
      simp
    | Unknown r =>
      rw [scanLoop.eq_def]
      simp
  · rw [scanLoop.eq_def]
    simp
  · intro h
    cases e with
    | EVENT c s2 => exact absurd rfl (h c s2)
    | EVER v => rw [scanLoop.eq_def]
    | EPANDESC q => rw [scanLoop.eq_def]
    | ERXUDP a b c d f g i j => rw [scanLoop.eq_def]
    | Unknown r => rw [scanLoop.eq_def]
  · intro c h20 h22
    rw [scanLoop.eq_def]
    simp [h20, h22]
  · intro ack hack
    simp [scan, consume_ok, hack]
  · intro p2 s1 s2 s3
    simp only [scan, consume_ok, if_pos rfl]
    rw [scanLoop.eq_def]
    simp
    rw [scanLoop.eq_def]
    simp
    rw [scanLoop.eq_def]
    simp

/-- C4 witness: a `0x20` notification followed by something other than a
peer descriptor fails with `UnexpectedEvent`, and the scripted two-candidate
stream returns its two peers in order. -/
theorem c4_scan_sequencing_witness :
    scanLoop [.EVENT 0x20 [], .Unknown []] [] = .err (.unexpectedEvent (.Unknown [])) ∧
    scan "OK".data
      [.EVENT 0x20 [], .EPANDESC ⟨1, 2, 3, "A".data, 4, "P".data⟩,
       .EVENT 0x20 [], .EPANDESC ⟨5, 6, 7, "B".data, 8, "Q".data⟩, .EVENT 0x22 []]
      = .ok [⟨1, 2, 3, "A".data, 4, "P".data⟩, ⟨5, 6, 7, "B".data, 8, "Q".data⟩] :=
  ⟨(c4_scan_sequencing ⟨1, 2, 3, "A".data, 4, "P".data⟩ [] (.Unknown []) [] []).2.1
      (fun q => by simp),
   (c4_scan_sequencing ⟨1, 2, 3, "A".data, 4, "P".data⟩ [] (.Unknown []) [] []).2.2.2.2.2.2
      ⟨5, 6, 7, "B".data, 8, "Q".data⟩ [] [] []⟩

/-- C5 (confirmed): the join loop, over any scripted event stream: a
notification with code `0x25` terminates the loop successfully; a
notification with code `0x24` terminates it at once with an error carrying
that notification; every other event — including unrecognized lines — is
skipped, so a `0x25` preceded by any number of `Unrecognized` events still
succeeds; the operation first requires the `OK` acknowledgement. -/
theorem c5_join_sequencing (s : Line) (e : SKEvent) (rest : List SKEvent) :
    joinLoop (.EVENT 0x25 s :: rest) = .ok () ∧
    joinLoop (.EVENT 0x24 s :: rest) = .err (.unexpectedEvent (.EVENT 0x24 s)) ∧
    ((∀ c s2, e = .EVENT c s2 → c ≠ 0x25 ∧ c ≠ 0x24) →
      joinLoop (e :: rest) = joinLoop rest) ∧
    (∀ ack, ack ≠ "OK".data → join ack rest = .err (.expectOK ack)) ∧
    (∀ raws : List Line,
      join "OK".data (raws.map SKEvent.Unknown ++ [.EVENT 0x25 s]) = .ok ()) := by
  refine ⟨?_, ?_, ?_, ?_, ?_⟩
  · simp [joinLoop]
  · simp [joinLoop]
  · intro h
    cases e with
    | EVENT c s2 =>
      obtain ⟨h25, h24⟩ := h c s2 rfl
      simp [joinLoop, h25, h24]
    | EVER v => simp [joinLoop]
    | EPANDESC q => simp [joinLoop]
    | ERXUDP a b c d f g i j => simp [joinLoop]
    | Unknown r => simp [joinLoop]
  · intro ack hack
    simp [join, consume_ok, hack]
  · intro raws
    have hloop : ∀ rs : List Line,
        joinLoop (rs.map SKEvent.Unknown ++ [.EVENT 0x25 s]) = .ok () := by
      intro rs
      induction rs with
      | nil => simp [joinLoop]
      | cons r t ih => simpa [joinLoop] using ih
    simp [join, consume_ok, hloop raws]

/-- C5 witness: an association-success notification preceded by an
unrecognized line still joins, and an unrelated event is skipped. -/
theorem c5_join_sequencing_witness :
    join "OK".data [.Unknown "X".data, .EVENT 0x25 []] = .ok () ∧
    joinLoop [.EVER [], .EVENT 0x25 []] = joinLoop [.EVENT 0x25 []] :=
  ⟨(c5_join_sequencing [] (.EVER []) [.EVENT 0x25 []]).2.2.2.2 ["X".data],
   (c5_join_sequencing [] (.EVER []) [.EVENT 0x25 []]).2.2.1
      (fun _c _s2 hh => SKEvent.noConfusion hh)⟩
